import Mathlib

/-!
# Flag binding of the command-line tool (`server/cli/flags.go`)

A shallow embedding of `initFlags`, the function that registers the options of
`server.Context` on the flag sets of the node, client and certificate commands,
together with theorems about which flags every command ends up with, when the
registration aborts, and what a registered flag is bound to.

The heap is modelled by explicit state passing: the shared `*server.Context`
and the flag set owned by every `*cobra.Command` live in a `World`.  A Go panic
is an `Except.error` that carries the world in which it was raised.
-/

namespace cli

/-! ## Data model -/

/-- A command descriptor (`*cobra.Command`), identified by its pointer. -/
abbrev Cmd := Nat

/-- The four kinds of option value that `initFlags` registers. -/
inductive Kind where
  | string
  | duration
  | int64
  | bool
  deriving DecidableEq, Repr

/-- The fields of `server.Context` that `initFlags` takes the address of. A
value of this type stands for the pointer `&ctx.<field>`. -/
inductive Field where
  | Addr
  | Stores
  | Attrs
  | MaxOffset
  | MetricsFrequency
  | GossipBootstrap
  | GossipInterval
  | Linearizable
  | CacheSize
  | ScanInterval
  | Insecure
  | Certs
  deriving DecidableEq, Repr

/-- A value of one of the four kinds. Durations (`time.Duration`) and `int64`
are integers; no arithmetic is performed on them here. -/
inductive Val where
  | str (s : String)
  | dur (d : Int)
  | int (i : Int)
  | bool (b : Bool)
  deriving DecidableEq, Repr

/-- The declared type of every field of `server.Context` used by `initFlags`
(fixed by the `StringVar`/`DurationVar`/`Int64Var`/`BoolVar` call that takes its
address). -/
def Field.kind : Field → Kind
  | .Addr => .string
  | .Stores => .string
  | .Attrs => .string
  | .MaxOffset => .duration
  | .MetricsFrequency => .duration
  | .GossipBootstrap => .string
  | .GossipInterval => .duration
  | .Linearizable => .bool
  | .CacheSize => .int64
  | .ScanInterval => .duration
  | .Insecure => .bool
  | .Certs => .string

/-- The configuration object `server.Context`, restricted to the fields that
`initFlags` reads and binds. The struct declaration itself lives in
`server/context.go`; the field names and types are those used in `flags.go`. -/
structure Context where
  Addr : String
  Stores : String
  Attrs : String
  MaxOffset : Int
  MetricsFrequency : Int
  GossipBootstrap : String
  GossipInterval : Int
  Linearizable : Bool
  CacheSize : Int
  ScanInterval : Int
  Insecure : Bool
  Certs : String
  deriving DecidableEq, Repr

/-- Read through a field pointer: `*p`. -/
def Context.get (ctx : Context) : Field → Val
  | .Addr => .str ctx.Addr
  | .Stores => .str ctx.Stores
  | .Attrs => .str ctx.Attrs
  | .MaxOffset => .dur ctx.MaxOffset
  | .MetricsFrequency => .dur ctx.MetricsFrequency
  | .GossipBootstrap => .str ctx.GossipBootstrap
  | .GossipInterval => .dur ctx.GossipInterval
  | .Linearizable => .bool ctx.Linearizable
  | .CacheSize => .int ctx.CacheSize
  | .ScanInterval => .dur ctx.ScanInterval
  | .Insecure => .bool ctx.Insecure
  | .Certs => .str ctx.Certs

/-- Write through a field pointer: `*p = v`. A value whose kind is not the
field's type cannot be stored (Go's type checker excludes it); the context is
then returned unchanged. -/
def Context.set (ctx : Context) : Field → Val → Context
  | .Addr, .str s => { ctx with Addr := s }
  | .Stores, .str s => { ctx with Stores := s }
  | .Attrs, .str s => { ctx with Attrs := s }
  | .MaxOffset, .dur d => { ctx with MaxOffset := d }
  | .MetricsFrequency, .dur d => { ctx with MetricsFrequency := d }
  | .GossipBootstrap, .str s => { ctx with GossipBootstrap := s }
  | .GossipInterval, .dur d => { ctx with GossipInterval := d }
  | .Linearizable, .bool b => { ctx with Linearizable := b }
  | .CacheSize, .int i => { ctx with CacheSize := i }
  | .ScanInterval, .dur d => { ctx with ScanInterval := d }
  | .Insecure, .bool b => { ctx with Insecure := b }
  | .Certs, .str s => { ctx with Certs := s }
  | _, _ => ctx

/-- One registered option of a flag set: its name, help text, the context field
it writes to when parsed, and the default recorded at registration. -/
structure Flag where
  Name : String
  Usage : String
  Target : Field
  DefValue : Val
  deriving DecidableEq, Repr

/-- The kind of a flag is the type of the field it is bound to. -/
def Flag.kind (f : Flag) : Kind := f.Target.kind

/-- The flag set of one command: its flags in registration order. -/
abbrev FlagSet := List Flag

/-- The names registered in a flag set, in registration order. -/
def FlagSet.names (f : FlagSet) : List String := f.map Flag.Name

/-- Look a flag up by name. -/
def FlagSet.Lookup (f : FlagSet) (name : String) : Option Flag :=
  f.find? (fun g => g.Name = name)

/-- One registration call: the command whose flag set receives the flag, and
the flag. -/
structure Registration where
  cmd : Cmd
  flag : Flag
  deriving DecidableEq, Repr

/-- The (command, flag name) pair a registration is about. -/
def Registration.key (r : Registration) : Cmd × String := (r.cmd, r.flag.Name)

/-- The package-level command lists that `initFlags` ranges over. They are
declared in other files of package `cli` and are parameters here. -/
structure Groups where
  nodeCmds : List Cmd
  kvCmds : List Cmd
  rangeCmds : List Cmd
  acctCmds : List Cmd
  permCmds : List Cmd
  zoneCmds : List Cmd
  certCmds : List Cmd
  deriving DecidableEq, Repr

/-- The state `initFlags` acts on: the shared context, the flag set of every
command (`cmd.Flags()`), and a record of every registration call made so far. -/
structure World where
  ctx : Context
  flags : Cmd → FlagSet
  trace : List Registration

/-- A panic of the registration primitive: the command and flag name of the
rejected registration, and the world at the moment the panic was raised. -/
structure Panic where
  cmd : Cmd
  name : String
  world : World

/-! ## The flag-set primitive consumed by `initFlags` -/

/-- Modelled from the spec: the flag-set registration primitive of the external
flag library (not part of this repository's sources). It adds the flag to the
flag set of `cmd`, and rejects a name that is already registered on that same
flag set by aborting with a message that identifies the command and the flag
name. -/
def AddFlag (w : World) (cmd : Cmd) (flag : Flag) : Except Panic World :=
  if flag.Name ∈ (w.flags cmd).names then
    .error ⟨cmd, flag.Name, w⟩
  else
    .ok { w with flags := fun c => if c = cmd then w.flags cmd ++ [flag] else w.flags c }

/-- Modelled from the spec: `register(flagSet, name, targetField, default,
helpText)` of the external flag library. The call stores the default through
the target pointer, records itself in the trace, and adds the flag. -/
def Var (w : World) (cmd : Cmd) (p : Field) (name : String) (value : Val)
    (usage : String) : Except Panic World :=
  let flag : Flag := ⟨name, usage, p, value⟩
  AddFlag { w with ctx := w.ctx.set p value, trace := w.trace ++ [⟨cmd, flag⟩] } cmd flag

/-- The string instance of the registration primitive: `cmd.Flags().StringVar`. -/
def StringVar (w : World) (cmd : Cmd) (p : Field) (name : String) (value : String)
    (usage : String) : Except Panic World :=
  Var w cmd p name (.str value) usage

/-- The duration instance: `cmd.Flags().DurationVar`. -/
def DurationVar (w : World) (cmd : Cmd) (p : Field) (name : String) (value : Int)
    (usage : String) : Except Panic World :=
  Var w cmd p name (.dur value) usage

/-- The 64-bit integer instance: `cmd.Flags().Int64Var`. -/
def Int64Var (w : World) (cmd : Cmd) (p : Field) (name : String) (value : Int)
    (usage : String) : Except Panic World :=
  Var w cmd p name (.int value) usage

/-- The boolean instance: `cmd.Flags().BoolVar`. -/
def BoolVar (w : World) (cmd : Cmd) (p : Field) (name : String) (value : Bool)
    (usage : String) : Except Panic World :=
  Var w cmd p name (.bool value) usage

/-- The ways in which setting a flag from the command line can fail. -/
inductive SetError where
  | noSuchFlag (name : String)
  | invalidValue (name : String)
  deriving DecidableEq, Repr

/-- Whether a parsed value can be stored in a field of the given kind: the
kinds agree, and integers and durations fit in 64 bits. -/
def Val.fits (v : Val) (k : Kind) : Bool :=
  match v, k with
  | .str _, .string => true
  | .dur d, .duration => decide (-(2 : Int) ^ 63 ≤ d ∧ d < (2 : Int) ^ 63)
  | .int i, .int64 => decide (-(2 : Int) ^ 63 ≤ i ∧ i < (2 : Int) ^ 63)
  | .bool _, .bool => true
  | _, _ => false

/-- Modelled from the spec: what parsing an argument does to a flag set of the
external flag library (not part of this repository's sources): "a flag set
that, when parsed, writes directly into the shared Configuration Object". The
flag is looked up by name on the command's flag set and the parsed value `v`
is written to the field the flag is bound to. Converting the argument text to
`v` is the library's business; a text that does not denote a value of the
flag's kind is an invalid value. -/
def SetFlag (w : World) (cmd : Cmd) (name : String) (v : Val) : Except SetError World :=
  match (w.flags cmd).Lookup name with
  | none => .error (.noSuchFlag name)
  | some flag =>
    if v.fits flag.kind then .ok { w with ctx := w.ctx.set flag.Target v }
    else .error (.invalidValue name)

/-! ## `initFlags` -/

/-- Help text of the node-pass `addr` flag. -/
def usageAddr : String := "the host:port to bind for HTTP/RPC traffic"

/-- Help text of `stores`. -/
def usageStores : String := "specify a comma-separated list of stores, " ++
  "specified by a colon-separated list of device attributes followed by '=' and " ++
  "either a filepath for a persistent store or an integer size in bytes for an " ++
  "in-memory store. Device attributes typically include whether the store is " ++
  "flash (ssd), spinny disk (hdd), fusion-io (fio), in-memory (mem); device " ++
  "attributes might also include speeds and other specs (7200rpm, 200kiops, etc.). " ++
  "For example, --stores=hdd:7200rpm=/mnt/hda1,ssd=/mnt/ssd01,ssd=/mnt/ssd02,mem=1073741824."

/-- Help text of `attrs`. -/
def usageAttrs : String := "specify an ordered, colon-separated list of node " ++
  "attributes. Attributes are arbitrary strings specifying topography or " ++
  "machine capabilities. Topography might include datacenter designation " ++
  "(e.g. \"us-west-1a\", \"us-west-1b\", \"us-east-1c\"). Machine capabilities " ++
  "might include specialized hardware or number of cores (e.g. \"gpu\", " ++
  "\"x16c\"). " ++
  "The relative geographic proximity of two nodes is inferred from the " ++
  "common prefix of the attributes list, so topographic attributes should be " ++
  "specified first and in the same order for all nodes. " ++
  "For example: --attrs=us-west-1b,gpu."

/-- Help text of `max-offset`. -/
def usageMaxOffset : String := "specify " ++
  "the maximum clock offset for the cluster. Clock offset is measured on all " ++
  "node-to-node links and if any node notices it has clock offset in excess " ++
  "of --max-offset, it will commit suicide. Setting this value too high may " ++
  "decrease transaction performance in the presence of contention."

/-- Help text of `metrics-frequency`. -/
def usageMetricsFrequency : String := "specify " ++
  "--metrics-frequency to adjust the frequency at which the server records " ++
  "its own internal metrics."

/-- Help text of `gossip`. -/
def usageGossip : String := "specify a " ++
  "comma-separated list of gossip addresses or resolvers for gossip bootstrap. " ++
  "Each item in the list has an optional type: [type=]<address>. " ++
  "Unspecified type means ip address or dns. Type can also be a load balancer (\"lb\"), " ++
  "a unix socket (\"unix\") or, for single-node systems, \"self\"."

/-- Help text of `gossip-interval`. -/
def usageGossipInterval : String :=
  "approximate interval (time.Duration) for gossiping new information to peers."

/-- Help text of `linearizable`. -/
def usageLinearizable : String := "enables linearizable behaviour " ++
  "of operations on this node by making sure that no commit timestamp is reported " ++
  "back to the client until all other node clocks have necessarily passed it."

/-- Help text of `cache-size`. -/
def usageCacheSize : String := "total size in bytes for " ++
  "caches, shared evenly if there are multiple storage devices."

/-- Help text of `scan-interval`. -/
def usageScanInterval : String := "specify " ++
  "--scan-interval to adjust the target for the duration of a single scan " ++
  "through a store's ranges. The scan is slowed as necessary to approximately " ++
  "achieve this duration."

/-- Help text of the client-pass `addr` flag. -/
def usageAddrClient : String := "the address for connection to the cockroach cluster."

/-- Help text of `insecure`. -/
def usageInsecure : String := "run over plain HTTP. WARNING: " ++
  "this is strongly discouraged."

/-- Help text of `certs`. -/
def usageCerts : String := "directory containing RSA key and x509 certs. " ++
  "This flag is required if --insecure=false."

/-- The body of the first loop of `initFlags` (`f := cmd.Flags()` followed by
ten registrations on `f`), each call reading its default from the context at
the time of the call. -/
def nodeBody (w : World) (cmd : Cmd) : Except Panic World := do
  -- Server flags.
  let w ← StringVar w cmd .Addr "addr" w.ctx.Addr usageAddr
  let w ← StringVar w cmd .Stores "stores" w.ctx.Stores usageStores
  let w ← StringVar w cmd .Attrs "attrs" w.ctx.Attrs usageAttrs
  let w ← DurationVar w cmd .MaxOffset "max-offset" w.ctx.MaxOffset usageMaxOffset
  let w ← DurationVar w cmd .MetricsFrequency "metrics-frequency" w.ctx.MetricsFrequency
    usageMetricsFrequency
  -- Gossip flags.
  let w ← StringVar w cmd .GossipBootstrap "gossip" w.ctx.GossipBootstrap usageGossip
  let w ← DurationVar w cmd .GossipInterval "gossip-interval" w.ctx.GossipInterval
    usageGossipInterval
  -- KV flags.
  let w ← BoolVar w cmd .Linearizable "linearizable" w.ctx.Linearizable usageLinearizable
  -- Engine flags.
  let w ← Int64Var w cmd .CacheSize "cache-size" w.ctx.CacheSize usageCacheSize
  DurationVar w cmd .ScanInterval "scan-interval" w.ctx.ScanInterval usageScanInterval

/-- The body of the second loop: a client command receives `addr` only. -/
def clientBody (w : World) (cmd : Cmd) : Except Panic World :=
  StringVar w cmd .Addr "addr" w.ctx.Addr usageAddrClient

/-- The body of the third loop nest: `insecure`. -/
def insecureBody (w : World) (cmd : Cmd) : Except Panic World :=
  BoolVar w cmd .Insecure "insecure" w.ctx.Insecure usageInsecure

/-- The body of the fourth loop nest: `certs`. -/
def certsBody (w : World) (cmd : Cmd) : Except Panic World :=
  StringVar w cmd .Certs "certs" w.ctx.Certs usageCerts

/-- The derived client group: `clientCmds` as built by the five `append` calls,
a plain concatenation. -/
def clientCmds (G : Groups) : List Cmd :=
  (((([] ++ G.kvCmds) ++ G.rangeCmds) ++ G.acctCmds) ++ G.permCmds) ++ G.zoneCmds

/-- The function `initFlags`: four passes over the command groups, each a
`for ... range` loop whose body registers flags on `cmd.Flags()`. A panic of
the registration primitive ends the run. -/
def initFlags (G : Groups) (w : World) : Except Panic World := do
  let w ← G.nodeCmds.foldlM nodeBody w
  let w ← (clientCmds G).foldlM clientBody w
  let w ← [G.nodeCmds, clientCmds G].foldlM (fun w cmds => cmds.foldlM insecureBody w) w
  [G.nodeCmds, clientCmds G, G.certCmds].foldlM (fun w cmds => cmds.foldlM certsBody w) w

/-- The world before `initFlags` runs: the given context, every flag set empty,
no registration made yet. -/
def World.fresh (ctx : Context) : World := ⟨ctx, fun _ => [], []⟩

/-- All seven primary lists, concatenated in the order node, kv, range, acct,
perm, zone, cert. The concatenation is duplicate-free exactly when the seven
lists are duplicate-free and pairwise disjoint. -/
def allCmds (G : Groups) : List Cmd :=
  G.nodeCmds ++ clientCmds G ++ G.certCmds

/-- The registration calls an outcome of `initFlags` records: those of the final
world, or those made up to and including the rejected one. -/
def attempts : Except Panic World → List Registration
  | .ok w => w.trace
  | .error p => p.world.trace

/-- The command and flag name of the rejected registration, if the run
panicked. -/
def failure : Except Panic World → Option (Cmd × String)
  | .ok _ => none
  | .error p => some (p.cmd, p.name)

/-- The flag set of a command after a run that completed. -/
def flagsAfter (r : Except Panic World) (c : Cmd) : Option FlagSet :=
  match r with
  | .ok w => some (w.flags c)
  | .error _ => none

/-! ## The registration sequence -/

/-- One registration call whose default is the current value of its target:
the flag is recorded in the trace and added to the command's flag set. -/
def register (w : World) (r : Registration) : Except Panic World :=
  AddFlag { w with trace := w.trace ++ [r] } r.cmd r.flag

/-- Running a list of registration calls in order. -/
def runPlan (L : List Registration) (w : World) : Except Panic World :=
  L.foldlM register w

/-- The calls of one loop: for every command of `l` in order, the flags `fl`. -/
def block : List Cmd → List Flag → List Registration
  | [], _ => []
  | c :: l, fl => fl.map (Registration.mk c) ++ block l fl

/-- The flags a command receives from a list of calls, in order. -/
def proj (c : Cmd) (L : List Registration) : List Flag :=
  (L.filter (fun r => r.cmd = c)).map Registration.flag

/-- The ten flags of the node pass for a given context. -/
def nodeFlags (ctx : Context) : List Flag :=
  [ ⟨"addr", usageAddr, .Addr, .str ctx.Addr⟩,
    ⟨"stores", usageStores, .Stores, .str ctx.Stores⟩,
    ⟨"attrs", usageAttrs, .Attrs, .str ctx.Attrs⟩,
    ⟨"max-offset", usageMaxOffset, .MaxOffset, .dur ctx.MaxOffset⟩,
    ⟨"metrics-frequency", usageMetricsFrequency, .MetricsFrequency, .dur ctx.MetricsFrequency⟩,
    ⟨"gossip", usageGossip, .GossipBootstrap, .str ctx.GossipBootstrap⟩,
    ⟨"gossip-interval", usageGossipInterval, .GossipInterval, .dur ctx.GossipInterval⟩,
    ⟨"linearizable", usageLinearizable, .Linearizable, .bool ctx.Linearizable⟩,
    ⟨"cache-size", usageCacheSize, .CacheSize, .int ctx.CacheSize⟩,
    ⟨"scan-interval", usageScanInterval, .ScanInterval, .dur ctx.ScanInterval⟩ ]

/-- The client-pass `addr` flag. -/
def addrClientFlag (ctx : Context) : Flag := ⟨"addr", usageAddrClient, .Addr, .str ctx.Addr⟩

/-- The `insecure` flag. -/
def insecureFlag (ctx : Context) : Flag := ⟨"insecure", usageInsecure, .Insecure, .bool ctx.Insecure⟩

/-- The `certs` flag. -/
def certsFlag (ctx : Context) : Flag := ⟨"certs", usageCerts, .Certs, .str ctx.Certs⟩

/-- The calls of the four passes of `initFlags`, in order, for a context that
does not change while they are made. -/
def plan (G : Groups) (ctx : Context) : List Registration :=
  block G.nodeCmds (nodeFlags ctx) ++
  (block (clientCmds G) [addrClientFlag ctx] ++
  ((block G.nodeCmds [insecureFlag ctx] ++ block (clientCmds G) [insecureFlag ctx]) ++
  (block G.nodeCmds [certsFlag ctx] ++ (block (clientCmds G) [certsFlag ctx] ++
    block G.certCmds [certsFlag ctx]))))

/-- The context after a completed run followed by setting one flag through the
flag set of a command. -/
def ctxAfterSet (r : Except Panic World) (cmd : Cmd) (name : String) (v : Val) :
    Option Context :=
  match r with
  | .ok w =>
    match SetFlag w cmd name v with
    | .ok w' => some w'.ctx
    | .error _ => none
  | .error _ => none

/-- The node-scoped option names, in registration order. -/
def nodeOptionNames : List String :=
  ["addr", "stores", "attrs", "max-offset", "metrics-frequency", "gossip",
    "gossip-interval", "linearizable", "cache-size", "scan-interval"]

/-- The node-only option names: the node-scoped ones except `addr`. -/
def nodeOnlyNames : List String :=
  ["stores", "attrs", "max-offset", "metrics-frequency", "gossip",
    "gossip-interval", "linearizable", "cache-size", "scan-interval"]

/-- The seven primary lists. -/
def primaryGroups (G : Groups) : List (List Cmd) :=
  [G.nodeCmds, G.kvCmds, G.rangeCmds, G.acctCmds, G.permCmds, G.zoneCmds, G.certCmds]

/-- What a flag records, apart from its help text. -/
def Flag.descr (f : Flag) : String × Kind × Field × Val :=
  (f.Name, f.kind, f.Target, f.DefValue)

/-- Every flag that some pass of `initFlags` registers, for a given context. -/
def allFlags (ctx : Context) : List Flag :=
  nodeFlags ctx ++ [addrClientFlag ctx, insecureFlag ctx, certsFlag ctx]

/-- The context field whose address `initFlags` passes when it registers a flag
of the given name. -/
def boundField (name : String) : Option Field :=
  if name = "addr" then some .Addr
  else if name = "stores" then some .Stores
  else if name = "attrs" then some .Attrs
  else if name = "max-offset" then some .MaxOffset
  else if name = "metrics-frequency" then some .MetricsFrequency
  else if name = "gossip" then some .GossipBootstrap
  else if name = "gossip-interval" then some .GossipInterval
  else if name = "linearizable" then some .Linearizable
  else if name = "cache-size" then some .CacheSize
  else if name = "scan-interval" then some .ScanInterval
  else if name = "insecure" then some .Insecure
  else if name = "certs" then some .Certs
  else none

/-! ## Concrete configurations -/

/-- A context whose cache size is 1073741824 and whose security fields have
their documented defaults. -/
def exampleCtx : Context :=
  { Addr := "localhost:8080", Stores := "", Attrs := "", MaxOffset := 250000000,
    MetricsFrequency := 10000000000, GossipBootstrap := "", GossipInterval := 2000000000,
    Linearizable := false, CacheSize := 1073741824, ScanInterval := 600000000000,
    Insecure := false, Certs := "" }

/-- Disjoint groups: command 0 is a node command, 1 a kv command, 2 a
certificate command, 3 a zone command. -/
def exampleGroups : Groups :=
  { nodeCmds := [0], kvCmds := [1], rangeCmds := [], acctCmds := [], permCmds := [],
    zoneCmds := [3], certCmds := [2] }

/-- Command 0 is both a node command and a certificate command. -/
def nodeCertGroups : Groups :=
  { nodeCmds := [0], kvCmds := [1], rangeCmds := [], acctCmds := [], permCmds := [],
    zoneCmds := [], certCmds := [2, 0] }

/-- Command 1 belongs to two client sub-groups, kv and range. -/
def twoSubgroups : Groups :=
  { nodeCmds := [0], kvCmds := [1], rangeCmds := [1], acctCmds := [], permCmds := [],
    zoneCmds := [], certCmds := [2] }

/-! ## Proof infrastructure -/

theorem Context.set_get (ctx : Context) (p : Field) : ctx.set p (ctx.get p) = ctx := by
  cases p <;> rfl

theorem Var_current (w : World) (cmd : Cmd) (p : Field) (name usage : String) :
    Var w cmd p name (w.ctx.get p) usage = register w ⟨cmd, ⟨name, usage, p, w.ctx.get p⟩⟩ := by
  simp only [Var, register, Context.set_get]

theorem bind_ok_eq {ε α β : Type} (a : α) (f : α → Except ε β) :
    (Except.ok a >>= f) = f a := rfl

theorem bind_error_eq {ε α β : Type} (e : ε) (f : α → Except ε β) :
    (Except.error e >>= f) = Except.error e := rfl

theorem register_eq (w : World) (r : Registration) :
    register w r =
      if r.flag.Name ∈ (w.flags r.cmd).names then
        .error ⟨r.cmd, r.flag.Name, { w with trace := w.trace ++ [r] }⟩
      else
        .ok ⟨w.ctx, fun c => if c = r.cmd then w.flags r.cmd ++ [r.flag] else w.flags c,
          w.trace ++ [r]⟩ := rfl

theorem register_ctx {w w' : World} {r : Registration} (h : register w r = .ok w') :
    w'.ctx = w.ctx := by
  rw [register_eq] at h
  split at h
  · cases h
  · cases h; rfl

theorem runPlan_nil (w : World) : runPlan [] w = .ok w := rfl

theorem runPlan_cons (r : Registration) (L : List Registration) (w : World) :
    runPlan (r :: L) w = register w r >>= runPlan L := by
  show List.foldlM register w (r :: L) = _
  rw [List.foldlM_cons]; rfl

theorem runPlan_append (L₁ L₂ : List Registration) (w : World) :
    runPlan (L₁ ++ L₂) w = runPlan L₁ w >>= runPlan L₂ := by
  show List.foldlM register w (L₁ ++ L₂) = _
  rw [List.foldlM_append]; rfl

theorem runPlan_append_fun (L₁ L₂ : List Registration) :
    runPlan (L₁ ++ L₂) = fun w => runPlan L₁ w >>= runPlan L₂ :=
  funext (runPlan_append L₁ L₂)

theorem runPlan_ctx : ∀ (L : List Registration) {w w' : World},
    runPlan L w = .ok w' → w'.ctx = w.ctx
  | [], w, w', h => by cases h; rfl
  | r :: L, w, w', h => by
    rw [runPlan_cons] at h
    cases hr : register w r with
    | error e => rw [hr] at h; cases h
    | ok w₁ =>
      rw [hr, bind_ok_eq] at h
      rw [runPlan_ctx L h, register_ctx hr]

/-- Two continuations that agree on every world with the same context give the
same result after a run of registrations. -/
theorem bind_congr_ctx {L : List Registration} {w : World}
    {f g : World → Except Panic World}
    (h : ∀ w', w'.ctx = w.ctx → f w' = g w') :
    (runPlan L w >>= f) = (runPlan L w >>= g) := by
  cases hr : runPlan L w with
  | error e => rfl
  | ok w₁ => rw [bind_ok_eq, bind_ok_eq]; exact h w₁ (runPlan_ctx L hr)

theorem runPlan_single (r : Registration) (w : World) : runPlan [r] w = register w r := by
  rw [runPlan_cons]
  cases register w r <;> rfl

theorem Var_of_get {w : World} {p : Field} {v : Val} (h : w.ctx.get p = v) (cmd : Cmd)
    (name usage : String) :
    Var w cmd p name v usage = register w ⟨cmd, ⟨name, usage, p, v⟩⟩ := by
  subst h; exact Var_current w cmd p name usage

theorem register_bind_eq {w : World} {r : Registration} {L : List Registration}
    {f : World → Except Panic World}
    (h : ∀ w₁, w₁.ctx = w.ctx → f w₁ = runPlan L w₁) :
    (register w r >>= f) = runPlan (r :: L) w := by
  rw [runPlan_cons]
  cases hr : register w r with
  | error e => rfl
  | ok w₁ => rw [bind_ok_eq, bind_ok_eq]; exact h w₁ (register_ctx hr)

theorem Var_bind_eq {w : World} {p : Field} {v : Val} {cmd : Cmd} {name usage : String}
    {L : List Registration} {f : World → Except Panic World}
    (hv : w.ctx.get p = v) (h : ∀ w₁, w₁.ctx = w.ctx → f w₁ = runPlan L w₁) :
    (Var w cmd p name v usage >>= f) = runPlan (⟨cmd, ⟨name, usage, p, v⟩⟩ :: L) w := by
  rw [Var_of_get hv]; exact register_bind_eq h

theorem Var_eq_runPlan {w : World} {p : Field} {v : Val} {cmd : Cmd} {name usage : String}
    (hv : w.ctx.get p = v) :
    Var w cmd p name v usage = runPlan [⟨cmd, ⟨name, usage, p, v⟩⟩] w := by
  rw [Var_of_get hv, runPlan_single]

theorem nodeBody_eq (w : World) (cmd : Cmd) :
    nodeBody w cmd = runPlan ((nodeFlags w.ctx).map (Registration.mk cmd)) w := by
  simp only [nodeBody, StringVar, DurationVar, Int64Var, BoolVar, nodeFlags, List.map]
  refine Var_bind_eq rfl (fun w₁ h₁ => ?_)
  rw [← h₁]
  refine Var_bind_eq rfl (fun w₂ h₂ => ?_)
  rw [← h₂]
  refine Var_bind_eq rfl (fun w₃ h₃ => ?_)
  rw [← h₃]
  refine Var_bind_eq rfl (fun w₄ h₄ => ?_)
  rw [← h₄]
  refine Var_bind_eq rfl (fun w₅ h₅ => ?_)
  rw [← h₅]
  refine Var_bind_eq rfl (fun w₆ h₆ => ?_)
  rw [← h₆]
  refine Var_bind_eq rfl (fun w₇ h₇ => ?_)
  rw [← h₇]
  refine Var_bind_eq rfl (fun w₈ h₈ => ?_)
  rw [← h₈]
  refine Var_bind_eq rfl (fun w₉ h₉ => ?_)
  rw [← h₉]
  exact Var_eq_runPlan rfl

theorem clientBody_eq (w : World) (cmd : Cmd) :
    clientBody w cmd = runPlan ([addrClientFlag w.ctx].map (Registration.mk cmd)) w :=
  Var_eq_runPlan rfl

theorem insecureBody_eq (w : World) (cmd : Cmd) :
    insecureBody w cmd = runPlan ([insecureFlag w.ctx].map (Registration.mk cmd)) w :=
  Var_eq_runPlan rfl

theorem certsBody_eq (w : World) (cmd : Cmd) :
    certsBody w cmd = runPlan ([certsFlag w.ctx].map (Registration.mk cmd)) w :=
  Var_eq_runPlan rfl

/-- A loop whose body makes the calls `fl` on each command makes the calls of
the corresponding block. -/
theorem foldlM_eq_block (body : World → Cmd → Except Panic World) (fl : Context → List Flag)
    (hbody : ∀ w cmd, body w cmd = runPlan ((fl w.ctx).map (Registration.mk cmd)) w) :
    ∀ (l : List Cmd) (w : World), l.foldlM body w = runPlan (block l (fl w.ctx)) w
  | [], w => rfl
  | c :: l, w => by
    rw [List.foldlM_cons, hbody, block, runPlan_append]
    refine bind_congr_ctx (fun w₁ h₁ => ?_)
    rw [foldlM_eq_block body fl hbody l w₁, h₁]

theorem initFlags_eq (G : Groups) (w : World) :
    initFlags G w = runPlan (plan G w.ctx) w := by
  unfold initFlags plan
  simp only [List.foldlM_cons, List.foldlM_nil]
  rw [foldlM_eq_block nodeBody nodeFlags nodeBody_eq, runPlan_append]
  refine bind_congr_ctx (fun w₁ h₁ => ?_)
  rw [foldlM_eq_block clientBody (fun ctx => [addrClientFlag ctx]) clientBody_eq, runPlan_append, h₁]
  refine bind_congr_ctx (fun w₂ h₂ => ?_)
  simp only [bind_assoc, bind_pure, runPlan_append_fun]
  rw [foldlM_eq_block insecureBody (fun ctx => [insecureFlag ctx]) insecureBody_eq, h₂, h₁]
  refine bind_congr_ctx (fun w₃ h₃ => ?_)
  rw [foldlM_eq_block insecureBody (fun ctx => [insecureFlag ctx]) insecureBody_eq, h₃, h₂, h₁]
  refine bind_congr_ctx (fun w₄ h₄ => ?_)
  rw [foldlM_eq_block certsBody (fun ctx => [certsFlag ctx]) certsBody_eq, h₄, h₃, h₂, h₁]
  refine bind_congr_ctx (fun w₅ h₅ => ?_)
  rw [foldlM_eq_block certsBody (fun ctx => [certsFlag ctx]) certsBody_eq, h₅, h₄, h₃, h₂, h₁]
  refine bind_congr_ctx (fun w₆ h₆ => ?_)
  rw [foldlM_eq_block certsBody (fun ctx => [certsFlag ctx]) certsBody_eq, h₆, h₅, h₄, h₃, h₂, h₁]

/-! ### What a run of registrations does -/

theorem proj_nil (c : Cmd) : proj c [] = [] := rfl

theorem proj_cons (c : Cmd) (r : Registration) (L : List Registration) :
    proj c (r :: L) = if r.cmd = c then r.flag :: proj c L else proj c L := by
  unfold proj
  by_cases h : r.cmd = c <;> simp [List.filter_cons, h]

theorem proj_append (c : Cmd) (L₁ L₂ : List Registration) :
    proj c (L₁ ++ L₂) = proj c L₁ ++ proj c L₂ := by
  simp [proj]

theorem names_append (f g : FlagSet) : FlagSet.names (f ++ g) = f.names ++ g.names := by
  simp [FlagSet.names]

/-- A run whose names stay pairwise different on every flag set completes, in
the world where every command has received its flags in order. -/
theorem runPlan_ok : ∀ (L : List Registration) (w : World),
    (∀ c, (FlagSet.names (w.flags c ++ proj c L)).Nodup) →
    runPlan L w = .ok ⟨w.ctx, fun c => w.flags c ++ proj c L, w.trace ++ L⟩
  | [], w, _ => by simp [runPlan_nil, proj_nil]
  | r :: L, w, h => by
    have hr := h r.cmd
    rw [proj_cons, if_pos rfl, names_append, List.nodup_append] at hr
    have hnot : r.flag.Name ∉ FlagSet.names (w.flags r.cmd) := by
      intro hmem
      exact hr.2.2 hmem (by simp [FlagSet.names])
    rw [runPlan_cons, register_eq, if_neg hnot, bind_ok_eq, runPlan_ok L]
    · congr 2
      · funext c
        by_cases hc : c = r.cmd
        · subst hc; simp [proj_cons]
        · have hc2 : ¬ r.cmd = c := fun e => hc e.symm
          simp [proj_cons, hc, hc2]
      · simp
    · intro c
      have hc := h c
      by_cases hcc : c = r.cmd
      · subst hcc; simpa [proj_cons] using hc
      · have hc2 : ¬ r.cmd = c := fun e => hcc e.symm
        simpa [proj_cons, hcc, hc2] using hc

/-- A run panics at the first call whose name is already on the flag set of
its command, with the world built by the calls before it. -/
theorem runPlan_error (L₁ L₂ : List Registration) (r : Registration) (w : World)
    (h₁ : ∀ c, (FlagSet.names (w.flags c ++ proj c L₁)).Nodup)
    (hr : r.flag.Name ∈ FlagSet.names (w.flags r.cmd ++ proj r.cmd L₁)) :
    runPlan (L₁ ++ r :: L₂) w =
      .error ⟨r.cmd, r.flag.Name,
        ⟨w.ctx, fun c => w.flags c ++ proj c L₁, w.trace ++ L₁ ++ [r]⟩⟩ := by
  rw [runPlan_append, runPlan_ok L₁ w h₁, bind_ok_eq, runPlan_cons, register_eq, if_pos hr]
  rfl

/-- Every list of calls either keeps all names apart, or has a first call that
clashes with what is already registered. -/
theorem clash_cases (w : World) (hw : ∀ c, (FlagSet.names (w.flags c)).Nodup)
    (L : List Registration) :
    (∀ c, (FlagSet.names (w.flags c ++ proj c L)).Nodup) ∨
    ∃ L₁ r L₂, L = L₁ ++ r :: L₂ ∧
      (∀ c, (FlagSet.names (w.flags c ++ proj c L₁)).Nodup) ∧
      r.flag.Name ∈ FlagSet.names (w.flags r.cmd ++ proj r.cmd L₁) := by
  induction L using List.reverseRecOn with
  | nil => left; intro c; simpa [proj_nil] using hw c
  | append_singleton L r ih =>
    rcases ih with h | ⟨L₁, r₁, L₂, hL, h₁, hr⟩
    · by_cases hr : r.flag.Name ∈ FlagSet.names (w.flags r.cmd ++ proj r.cmd L)
      · right; exact ⟨L, r, [], rfl, h, hr⟩
      · left
        intro c
        by_cases hc : r.cmd = c
        · subst hc
          rw [proj_append, ← List.append_assoc, names_append, List.nodup_append]
          refine ⟨h _, by simp [proj_cons, proj_nil, FlagSet.names], ?_⟩
          intro a ha hb
          simp [proj_cons, proj_nil, FlagSet.names] at hb
          subst hb
          exact hr ha
        · simpa [proj_append, proj_cons, proj_nil, hc] using h c
    · right
      exact ⟨L₁, r₁, L₂ ++ [r], by simp [hL], h₁, hr⟩

/-! ### The calls a command receives from the plan -/

theorem block_append (l₁ l₂ : List Cmd) (fl : List Flag) :
    block (l₁ ++ l₂) fl = block l₁ fl ++ block l₂ fl := by
  induction l₁ with
  | nil => rfl
  | cons d l ih => simp [block, ih]

theorem proj_map_mk (c d : Cmd) (fl : List Flag) :
    proj c (fl.map (Registration.mk d)) = if d = c then fl else [] := by
  induction fl with
  | nil => simp [proj_nil]
  | cons f fl ih =>
    by_cases h : d = c
    · subst h; simpa [proj_cons] using ih
    · simpa [proj_cons, h] using ih

theorem proj_block_of_not_mem (c : Cmd) (fl : List Flag) :
    ∀ l : List Cmd, c ∉ l → proj c (block l fl) = []
  | [], _ => rfl
  | d :: l, h => by
    have hd : ¬ d = c := fun e => h (by simp [e])
    have hl : c ∉ l := fun e => h (by simp [e])
    rw [block, proj_append, proj_map_mk, if_neg hd, proj_block_of_not_mem c fl l hl]
    rfl

theorem proj_block_of_mem (c : Cmd) (fl : List Flag) :
    ∀ l : List Cmd, l.count c ≤ 1 → c ∈ l → proj c (block l fl) = fl
  | [], _, h => by simp at h
  | d :: l, hcnt, h => by
    rw [block, proj_append, proj_map_mk]
    by_cases hd : d = c
    · subst hd
      have hl : d ∉ l := by
        intro hmem
        have := List.count_pos_iff.2 hmem
        simp at hcnt
        omega
      rw [if_pos rfl, proj_block_of_not_mem d fl l hl, List.append_nil]
    · have hl : c ∈ l := by
        rcases List.mem_cons.1 h with e | e
        · exact absurd e.symm hd
        · exact e
      have hcnt2 : l.count c ≤ 1 := by
        have := List.count_le_count_cons c d l
        omega
      rw [if_neg hd, proj_block_of_mem c fl l hcnt2 hl, List.nil_append]

theorem proj_block_single (c : Cmd) (f : Flag) :
    ∀ l : List Cmd, proj c (block l [f]) = List.replicate (l.count c) f
  | [] => rfl
  | d :: l => by
    rw [block, proj_append, proj_map_mk, proj_block_single c f l]
    by_cases hd : d = c
    · subst hd; simp [List.replicate_succ]
    · simp [hd, List.count_cons]

/-- A command that occurs at most once in the seven lists occurs at most once
in each of the three groups `initFlags` ranges over, and in at most one. -/
theorem count_groups {G : Groups} {c : Cmd} (h : (allCmds G).count c ≤ 1) :
    G.nodeCmds.count c + (clientCmds G).count c + G.certCmds.count c ≤ 1 := by
  simpa [allCmds, List.count_append, Nat.add_assoc] using h

theorem not_mem_of_count_zero {l : List Cmd} {c : Cmd} (h : l.count c = 0) : c ∉ l :=
  fun hmem => by have := List.count_pos_iff.2 hmem; omega

theorem proj_plan_node {G : Groups} {c : Cmd} (h : (allCmds G).count c ≤ 1) (ctx : Context)
    (hc : c ∈ G.nodeCmds) :
    proj c (plan G ctx) = nodeFlags ctx ++ [insecureFlag ctx, certsFlag ctx] := by
  have hcnt := count_groups h
  have h1 := List.count_pos_iff.2 hc
  have hcl : c ∉ clientCmds G := not_mem_of_count_zero (by omega)
  have hcert : c ∉ G.certCmds := not_mem_of_count_zero (by omega)
  simp only [plan, proj_append, proj_block_of_mem c _ _ (by omega : G.nodeCmds.count c ≤ 1) hc,
    proj_block_of_not_mem c _ _ hcl, proj_block_of_not_mem c _ _ hcert]
  simp

theorem proj_plan_client {G : Groups} {c : Cmd} (h : (allCmds G).count c ≤ 1) (ctx : Context)
    (hc : c ∈ clientCmds G) :
    proj c (plan G ctx) = [addrClientFlag ctx, insecureFlag ctx, certsFlag ctx] := by
  have hcnt := count_groups h
  have h1 := List.count_pos_iff.2 hc
  have hn : c ∉ G.nodeCmds := not_mem_of_count_zero (by omega)
  have hcert : c ∉ G.certCmds := not_mem_of_count_zero (by omega)
  simp only [plan, proj_append, proj_block_of_mem c _ _ (by omega : (clientCmds G).count c ≤ 1) hc,
    proj_block_of_not_mem c _ _ hn, proj_block_of_not_mem c _ _ hcert]
  simp

theorem proj_plan_cert {G : Groups} {c : Cmd} (h : (allCmds G).count c ≤ 1) (ctx : Context)
    (hc : c ∈ G.certCmds) :
    proj c (plan G ctx) = [certsFlag ctx] := by
  have hcnt := count_groups h
  have h1 := List.count_pos_iff.2 hc
  have hn : c ∉ G.nodeCmds := not_mem_of_count_zero (by omega)
  have hcl : c ∉ clientCmds G := not_mem_of_count_zero (by omega)
  simp only [plan, proj_append, proj_block_of_mem c _ _ (by omega : G.certCmds.count c ≤ 1) hc,
    proj_block_of_not_mem c _ _ hn, proj_block_of_not_mem c _ _ hcl]
  simp

theorem proj_plan_other (G : Groups) (ctx : Context) {c : Cmd} (hc : c ∉ allCmds G) :
    proj c (plan G ctx) = [] := by
  have hn : c ∉ G.nodeCmds := fun e => hc (by simp [allCmds, e])
  have hcl : c ∉ clientCmds G := fun e => hc (by simp [allCmds, e])
  have hcert : c ∉ G.certCmds := fun e => hc (by simp [allCmds, e])
  simp only [plan, proj_append, proj_block_of_not_mem c _ _ hn,
    proj_block_of_not_mem c _ _ hcl, proj_block_of_not_mem c _ _ hcert]
  simp

theorem names_node (ctx : Context) :
    FlagSet.names (nodeFlags ctx ++ [insecureFlag ctx, certsFlag ctx]) =
      ["addr", "stores", "attrs", "max-offset", "metrics-frequency", "gossip",
        "gossip-interval", "linearizable", "cache-size", "scan-interval", "insecure",
        "certs"] := rfl

theorem names_client (ctx : Context) :
    FlagSet.names [addrClientFlag ctx, insecureFlag ctx, certsFlag ctx] =
      ["addr", "insecure", "certs"] := rfl

/-- A command that occurs at most once in the seven lists is not given the same
name twice by the plan. -/
theorem plan_names_nodup_of_count {G : Groups} {c : Cmd} (h : (allCmds G).count c ≤ 1)
    (ctx : Context) : (FlagSet.names (proj c (plan G ctx))).Nodup := by
  by_cases hn : c ∈ G.nodeCmds
  · rw [proj_plan_node h ctx hn, names_node]; decide
  · by_cases hcl : c ∈ clientCmds G
    · rw [proj_plan_client h ctx hcl, names_client]; decide
    · by_cases hcert : c ∈ G.certCmds
      · rw [proj_plan_cert h ctx hcert]; simp [FlagSet.names]
      · rw [proj_plan_other G ctx (by simp [allCmds, hn, hcl, hcert])]; simp [FlagSet.names]

theorem count_le_one_of_nodup {G : Groups} (h : (allCmds G).Nodup) (c : Cmd) :
    (allCmds G).count c ≤ 1 :=
  List.nodup_iff_count_le_one.1 h c

/-- With disjoint groups and empty flag sets `initFlags` completes; the final
world has the context unchanged, every command holding the flags the plan
gives it, and the plan as its trace. -/
theorem initFlags_fresh_ok {G : Groups} (h : (allCmds G).Nodup) (ctx : Context) :
    initFlags G (World.fresh ctx) =
      .ok ⟨ctx, fun c => proj c (plan G ctx), plan G ctx⟩ := by
  rw [initFlags_eq, runPlan_ok]
  · simp [World.fresh]
  · intro c
    simpa [World.fresh] using plan_names_nodup_of_count (count_le_one_of_nodup h c) ctx

/-- The `certs` calls alone reach a command as often as it occurs in the seven
lists, so a plan that keeps names apart forces the lists to be disjoint. -/
theorem nodup_of_plan_names_nodup {G : Groups} {ctx : Context}
    (h : ∀ c, (FlagSet.names (proj c (plan G ctx))).Nodup) : (allCmds G).Nodup := by
  rw [List.nodup_iff_count_le_one]
  intro c
  have hc := h c
  simp only [plan, proj_append, proj_block_single, names_append] at hc
  have h4 := (List.nodup_append.1 (List.nodup_append.1 (List.nodup_append.1 hc).2.1).2.1).2.1
  rw [← names_append, ← names_append, ← List.replicate_add, ← List.replicate_add] at h4
  simp only [FlagSet.names, List.map_replicate] at h4
  have := List.nodup_iff_count_le_one.1 h4 (certsFlag ctx).Name
  simp only [List.count_replicate_self] at this
  simpa [allCmds, List.count_append, Nat.add_assoc] using this

/-- The outcome of `initFlags` on empty flag sets: it completes with the flags
of the plan, or panics at the first call of the plan that repeats a name on a
command. -/
theorem initFlags_fresh_cases (G : Groups) (ctx : Context) :
    ((∀ c, (FlagSet.names (proj c (plan G ctx))).Nodup) ∧
      initFlags G (World.fresh ctx) =
        .ok ⟨ctx, fun c => proj c (plan G ctx), plan G ctx⟩) ∨
    ∃ L₁ r L₂, plan G ctx = L₁ ++ r :: L₂ ∧
      (∀ c, (FlagSet.names (proj c L₁)).Nodup) ∧
      r.flag.Name ∈ FlagSet.names (proj r.cmd L₁) ∧
      initFlags G (World.fresh ctx) =
        .error ⟨r.cmd, r.flag.Name, ⟨ctx, fun c => proj c L₁, L₁ ++ [r]⟩⟩ := by
  rcases clash_cases (World.fresh ctx) (by intro c; simp [World.fresh, FlagSet.names])
    (plan G ctx) with h | ⟨L₁, r, L₂, hL, h₁, hr⟩
  · left
    refine ⟨by simpa [World.fresh] using h, ?_⟩
    rw [initFlags_eq]
    show runPlan (plan G ctx) (World.fresh ctx) = _
    rw [runPlan_ok _ _ h]
    simp [World.fresh]
  · right
    refine ⟨L₁, r, L₂, hL, by simpa [World.fresh] using h₁, by simpa [World.fresh] using hr, ?_⟩
    rw [initFlags_eq]
    show runPlan (plan G ctx) (World.fresh ctx) = _
    rw [hL, runPlan_error L₁ L₂ r _ h₁ hr]
    simp [World.fresh]

theorem lookup_node_insecure (ctx : Context) :
    FlagSet.Lookup (nodeFlags ctx ++ [insecureFlag ctx, certsFlag ctx]) "insecure" =
      some ⟨"insecure", usageInsecure, .Insecure, .bool ctx.Insecure⟩ := rfl

theorem lookup_node_certs (ctx : Context) :
    FlagSet.Lookup (nodeFlags ctx ++ [insecureFlag ctx, certsFlag ctx]) "certs" =
      some ⟨"certs", usageCerts, .Certs, .str ctx.Certs⟩ := rfl

theorem lookup_client_insecure (ctx : Context) :
    FlagSet.Lookup [addrClientFlag ctx, insecureFlag ctx, certsFlag ctx] "insecure" =
      some ⟨"insecure", usageInsecure, .Insecure, .bool ctx.Insecure⟩ := rfl

theorem lookup_client_certs (ctx : Context) :
    FlagSet.Lookup [addrClientFlag ctx, insecureFlag ctx, certsFlag ctx] "certs" =
      some ⟨"certs", usageCerts, .Certs, .str ctx.Certs⟩ := rfl

theorem block_cons_single (c : Cmd) (l : List Cmd) (f : Flag) :
    block (c :: l) [f] = ⟨c, f⟩ :: block l [f] := rfl

/-! ### Calls, keys and flag sets -/

theorem mem_proj {L : List Registration} {r : Registration} (h : r ∈ L) :
    r.flag ∈ proj r.cmd L := by
  unfold proj
  exact List.mem_map.2 ⟨r, List.mem_filter.2 ⟨h, by simp⟩, rfl⟩

theorem of_mem_proj {L : List Registration} {c : Cmd} {f : Flag} (h : f ∈ proj c L) :
    (⟨c, f⟩ : Registration) ∈ L := by
  unfold proj at h
  obtain ⟨r, hr, hf⟩ := List.mem_map.1 h
  obtain ⟨hmem, hcmd⟩ := List.mem_filter.1 hr
  have hcmd' : r.cmd = c := by simpa using hcmd
  cases r
  simp only at hcmd' hf
  subst hcmd' hf
  exact hmem

/-- A name already on the flags a command got from a list of calls comes from
a call of that list with the same key. -/
theorem key_mem_of_name_mem {L : List Registration} {c : Cmd} {n : String}
    (h : n ∈ FlagSet.names (proj c L)) : (c, n) ∈ L.map Registration.key := by
  obtain ⟨f, hf, hn⟩ := List.mem_map.1 h
  exact List.mem_map.2 ⟨⟨c, f⟩, of_mem_proj hf, by simp [Registration.key, hn]⟩

theorem name_mem_of_key_mem {L : List Registration} {c : Cmd} {n : String}
    (h : (c, n) ∈ L.map Registration.key) : n ∈ FlagSet.names (proj c L) := by
  obtain ⟨r, hr, hk⟩ := List.mem_map.1 h
  simp only [Registration.key, Prod.mk.injEq] at hk
  obtain ⟨hc, hn⟩ := hk
  subst hc hn
  exact List.mem_map.2 ⟨r.flag, mem_proj hr, rfl⟩

/-- Calls that keep the names on every command apart have pairwise different
(command, flag name) keys. -/
theorem keys_nodup_of_names_nodup : ∀ L : List Registration,
    (∀ c, (FlagSet.names (proj c L)).Nodup) → (L.map Registration.key).Nodup
  | [], _ => List.nodup_nil
  | r :: L, h => by
    rw [List.map_cons, List.nodup_cons]
    have hr := h r.cmd
    rw [proj_cons, if_pos rfl] at hr
    have hr' : (r.flag.Name :: FlagSet.names (proj r.cmd L)).Nodup := hr
    rw [List.nodup_cons] at hr'
    refine ⟨fun hmem => hr'.1 (name_mem_of_key_mem hmem), ?_⟩
    apply keys_nodup_of_names_nodup L
    intro c
    have hc := h c
    rw [proj_cons] at hc
    by_cases hcc : r.cmd = c
    · rw [if_pos hcc] at hc
      have hc' : (r.flag.Name :: FlagSet.names (proj c L)).Nodup := hc
      exact (List.nodup_cons.1 hc').2
    · rwa [if_neg hcc] at hc

/-- The concatenation of the seven lists is duplicate-free exactly when each
list is duplicate-free and the lists are pairwise disjoint. -/
theorem allCmds_nodup_iff (G : Groups) :
    (allCmds G).Nodup ↔
      (∀ l, l ∈ primaryGroups G → l.Nodup) ∧ (primaryGroups G).Pairwise List.Disjoint := by
  have h : allCmds G = (primaryGroups G).flatten := by
    simp [allCmds, clientCmds, primaryGroups, List.flatten]
  rw [h, List.nodup_flatten]

/-! ### What a flag is bound to -/

theorem mem_block {l : List Cmd} {fl : List Flag} {r : Registration} (h : r ∈ block l fl) :
    r.cmd ∈ l ∧ r.flag ∈ fl := by
  induction l with
  | nil => simp [block] at h
  | cons d l ih =>
    rw [block, List.mem_append] at h
    rcases h with h | h
    · obtain ⟨f, hf, rfl⟩ := List.mem_map.1 h
      exact ⟨by simp, hf⟩
    · exact ⟨by simp [(ih h).1], (ih h).2⟩

theorem flag_mem_allFlags {G : Groups} {ctx : Context} {r : Registration}
    (h : r ∈ plan G ctx) : r.flag ∈ allFlags ctx := by
  simp only [plan, List.mem_append] at h
  rcases h with h | h | (h | h) | h | h | h <;>
    have := (mem_block h).2 <;> simp [allFlags] at this ⊢ <;> simp [this]

/-- Every flag `initFlags` registers is bound to the field its name stands for,
and its default is the value of that field. -/
theorem flag_binding {ctx : Context} {f : Flag} (h : f ∈ allFlags ctx) :
    boundField f.Name = some f.Target ∧ f.DefValue = ctx.get f.Target := by
  simp only [allFlags, nodeFlags, addrClientFlag, insecureFlag, certsFlag, List.cons_append,
    List.nil_append, List.mem_cons, List.mem_singleton, List.not_mem_nil, or_false] at h
  rcases h with h | h | h | h | h | h | h | h | h | h | h | h | h <;> subst h <;>
    exact ⟨rfl, rfl⟩

/-- The calls recorded by the outcome of a run are calls recorded before the run
or calls of the list that was run. -/
theorem attempts_runPlan : ∀ (L : List Registration) (w : World) (r : Registration),
    r ∈ attempts (runPlan L w) → r ∈ w.trace ∨ r ∈ L
  | [], w, r, h => Or.inl h
  | r₀ :: L, w, r, h => by
    rw [runPlan_cons, register_eq] at h
    split at h
    · have h' : r ∈ w.trace ++ [r₀] := h
      rcases List.mem_append.1 h' with h' | h'
      · exact Or.inl h'
      · exact Or.inr (by simp at h'; simp [h'])
    · rw [bind_ok_eq] at h
      rcases attempts_runPlan L _ r h with h' | h'
      · have h'' : r ∈ w.trace ++ [r₀] := h'
        rcases List.mem_append.1 h'' with h'' | h''
        · exact Or.inl h''
        · exact Or.inr (by simp at h''; simp [h''])
      · exact Or.inr (by simp [h'])

/-! ### Setting a flag -/

theorem Context.get_set (ctx : Context) (p : Field) (v : Val) (h : v.fits p.kind = true) :
    (ctx.set p v).get p = v := by
  cases p <;> cases v <;> simp [Val.fits, Field.kind] at h <;> rfl

theorem lookup_of_mem : ∀ (fs : FlagSet) (f : Flag), fs.names.Nodup → f ∈ fs →
    fs.Lookup f.Name = some f
  | [], _, _, h => by simp at h
  | g :: fs, f, hnd, h => by
    have hnd' : (g.Name :: FlagSet.names fs).Nodup := hnd
    rw [List.nodup_cons] at hnd'
    unfold FlagSet.Lookup
    rw [List.find?_cons]
    by_cases hg : g.Name = f.Name
    · rcases List.mem_cons.1 h with e | e
      · subst e; simp
      · exact absurd (hg ▸ List.mem_map.2 ⟨f, e, rfl⟩) hnd'.1
    · have hf : f ∈ fs := by
        rcases List.mem_cons.1 h with e | e
        · exact absurd (by rw [e]) hg
        · exact e
      simp only [hg, decide_False]
      exact lookup_of_mem fs f hnd'.2 hf

/-- A completed run of `initFlags` on empty flag sets: the seven lists were
duplicate-free and pairwise disjoint, and the final world is the one where
every command holds the flags the plan gives it. -/
theorem initFlags_fresh_inv {G : Groups} {ctx : Context} {w : World}
    (hrun : initFlags G (World.fresh ctx) = .ok w) :
    (allCmds G).Nodup ∧ w = ⟨ctx, fun c => proj c (plan G ctx), plan G ctx⟩ := by
  rcases initFlags_fresh_cases G ctx with ⟨hn, hok⟩ | ⟨L₁, r, L₂, _, _, _, herr⟩
  · rw [hok] at hrun
    exact ⟨nodup_of_plan_names_nodup hn, (Except.ok.inj hrun).symm⟩
  · rw [herr] at hrun
    cases hrun

/-! ## Properties of `initFlags` -/

/-- C1 (as amended): `initFlags` started on empty flag sets completes when the
seven lists are duplicate-free and pairwise disjoint, and after any completed
run a command of the node or client group has an `insecure` flag bound to
`ctx.Insecure` with default `ctx.Insecure` and a `certs` flag bound to
`ctx.Certs` with default `ctx.Certs`, while a command of the certificate group
has that `certs` flag and no `insecure` flag. -/
theorem security_flags_by_group (G : Groups) (ctx : Context) (c : Cmd) :
    ((allCmds G).Nodup → ∃ w, initFlags G (World.fresh ctx) = .ok w) ∧
    ∀ w, initFlags G (World.fresh ctx) = .ok w →
      (c ∈ G.nodeCmds ++ clientCmds G →
        (w.flags c).Lookup "insecure" =
          some ⟨"insecure", usageInsecure, .Insecure, .bool ctx.Insecure⟩ ∧
        (w.flags c).Lookup "certs" = some ⟨"certs", usageCerts, .Certs, .str ctx.Certs⟩) ∧
      (c ∈ G.certCmds →
        (w.flags c).Lookup "certs" = some ⟨"certs", usageCerts, .Certs, .str ctx.Certs⟩ ∧
        (w.flags c).Lookup "insecure" = none) := by
  refine ⟨fun h => ⟨_, initFlags_fresh_ok h ctx⟩, ?_⟩
  intro w hrun
  obtain ⟨h, hw⟩ := initFlags_fresh_inv hrun
  subst hw
  have hcnt := count_le_one_of_nodup h c
  refine ⟨fun hc => ?_, fun hc => ?_⟩
  · show FlagSet.Lookup (proj c (plan G ctx)) _ = _ ∧ FlagSet.Lookup (proj c (plan G ctx)) _ = _
    rcases List.mem_append.1 hc with hn | hcl
    · rw [proj_plan_node hcnt ctx hn]
      exact ⟨lookup_node_insecure ctx, lookup_node_certs ctx⟩
    · rw [proj_plan_client hcnt ctx hcl]
      exact ⟨lookup_client_insecure ctx, lookup_client_certs ctx⟩
  · show FlagSet.Lookup (proj c (plan G ctx)) _ = _ ∧ FlagSet.Lookup (proj c (plan G ctx)) _ = _
    rw [proj_plan_cert hcnt ctx hc]
    exact ⟨rfl, rfl⟩

/-- Witness for C1 (as amended): on the example groups the run completes; the
kv command 1 has both security flags. -/
theorem security_flags_by_group_witness :
    ((allCmds exampleGroups).Nodup ∧
      1 ∈ exampleGroups.nodeCmds ++ clientCmds exampleGroups) ∧
    ∃ w, initFlags exampleGroups (World.fresh exampleCtx) = .ok w ∧
      (w.flags 1).Lookup "insecure" =
        some ⟨"insecure", usageInsecure, .Insecure, .bool exampleCtx.Insecure⟩ ∧
      (w.flags 1).Lookup "certs" =
        some ⟨"certs", usageCerts, .Certs, .str exampleCtx.Certs⟩ :=
  ⟨by decide,
    ((security_flags_by_group exampleGroups exampleCtx 1).1 (by decide)).elim
      (fun w hw => ⟨w, hw,
        ((security_flags_by_group exampleGroups exampleCtx 1).2 w hw).1 (by decide)⟩)⟩

/-- C1 (counterexample): command 2 belongs only to the certificate group of the
example groups; `initFlags` completes, and the flag set of command 2 holds
`certs` alone, with no `insecure` flag. -/
theorem cert_only_command_lacks_insecure :
    2 ∈ exampleGroups.nodeCmds ++ clientCmds exampleGroups ++ exampleGroups.certCmds ∧
    (flagsAfter (initFlags exampleGroups (World.fresh exampleCtx)) 2).map FlagSet.names =
      some ["certs"] ∧
    (flagsAfter (initFlags exampleGroups (World.fresh exampleCtx)) 2).map
      (fun f => f.Lookup "insecure") = some none := by
  decide

/-- C2 (as amended): when a command `c` is both a node command and a
certificate command, all other memberships being disjoint and all flag sets
empty, `initFlags` panics: the certificates pass reaches `c` a second time, the
registration of `certs` on `c` is rejected, and at that moment the flag set of
`c` holds the twelve flags of a node command, `certs` among them once. -/
theorem certs_pass_not_deduplicated (G : Groups) (ctx : Context) (c : Cmd)
    (hnc : (G.nodeCmds ++ clientCmds G).Nodup) (hcert : G.certCmds.Nodup)
    (hc₁ : c ∈ G.nodeCmds) (hc₂ : c ∈ G.certCmds)
    (honly : ∀ d, d ∈ G.certCmds → d ∈ G.nodeCmds ++ clientCmds G → d = c) :
    ∃ p, initFlags G (World.fresh ctx) = .error p ∧ p.cmd = c ∧ p.name = "certs" ∧
      (p.world.flags c).names =
        ["addr", "stores", "attrs", "max-offset", "metrics-frequency", "gossip",
          "gossip-interval", "linearizable", "cache-size", "scan-interval", "insecure",
          "certs"] := by
  obtain ⟨pre, post, hsplit⟩ := List.append_of_mem hc₂
  let G' : Groups := { G with certCmds := pre }
  have hcl : clientCmds G' = clientCmds G := rfl
  have hpre : c ∉ pre := by
    rw [hsplit, List.nodup_append] at hcert
    intro hmem
    exact hcert.2.2 hmem (by simp)
  have hall : (allCmds G').Nodup := by
    show (G.nodeCmds ++ clientCmds G ++ pre).Nodup
    rw [List.nodup_append]
    refine ⟨hnc, ?_, ?_⟩
    · rw [hsplit, List.nodup_append] at hcert
      exact hcert.1
    · intro d hd hd'
      have := honly d (by rw [hsplit]; simp [hd']) hd
      exact hpre (this ▸ hd')
  have hplan : plan G ctx =
      plan G' ctx ++ ⟨c, certsFlag ctx⟩ :: block post [certsFlag ctx] := by
    show _ = plan { G with certCmds := pre } ctx ++ _
    simp only [plan, hsplit, block_append, block_cons_single, List.append_assoc, hcl]
  have hproj : proj c (plan G' ctx) = nodeFlags ctx ++ [insecureFlag ctx, certsFlag ctx] :=
    proj_plan_node (count_le_one_of_nodup hall c) ctx hc₁
  have h₁ : ∀ d, (FlagSet.names ((World.fresh ctx).flags d ++ proj d (plan G' ctx))).Nodup := by
    intro d
    simpa [World.fresh] using plan_names_nodup_of_count (count_le_one_of_nodup hall d) ctx
  have hr : (certsFlag ctx).Name ∈
      FlagSet.names ((World.fresh ctx).flags c ++ proj c (plan G' ctx)) := by
    show _ ∈ FlagSet.names ([] ++ proj c (plan G' ctx))
    rw [List.nil_append, hproj, names_node]
    show "certs" ∈ _
    decide
  have herr := runPlan_error (plan G' ctx) (block post [certsFlag ctx]) ⟨c, certsFlag ctx⟩ _ h₁ hr
  refine ⟨⟨c, "certs", ⟨ctx, fun d => proj d (plan G' ctx),
    plan G' ctx ++ [⟨c, certsFlag ctx⟩]⟩⟩, ?_, rfl, rfl, ?_⟩
  · rw [initFlags_eq]
    show runPlan (plan G ctx) (World.fresh ctx) = _
    rw [hplan, herr]
    simp [World.fresh, certsFlag]
  · show FlagSet.names (proj c (plan G' ctx)) = _
    rw [hproj, names_node]

/-- Witness for C2 (as amended): command 0 of `nodeCertGroups`. -/
theorem certs_pass_not_deduplicated_witness :
    ((nodeCertGroups.nodeCmds ++ clientCmds nodeCertGroups).Nodup ∧
      nodeCertGroups.certCmds.Nodup ∧ 0 ∈ nodeCertGroups.nodeCmds ∧
      0 ∈ nodeCertGroups.certCmds ∧
      ∀ d, d ∈ nodeCertGroups.certCmds →
        d ∈ nodeCertGroups.nodeCmds ++ clientCmds nodeCertGroups → d = 0) ∧
    ∃ p, initFlags nodeCertGroups (World.fresh exampleCtx) = .error p ∧ p.cmd = 0 ∧
      p.name = "certs" ∧
      (p.world.flags 0).names =
        ["addr", "stores", "attrs", "max-offset", "metrics-frequency", "gossip",
          "gossip-interval", "linearizable", "cache-size", "scan-interval", "insecure",
          "certs"] :=
  ⟨by decide, certs_pass_not_deduplicated nodeCertGroups exampleCtx 0 (by decide) (by decide)
    (by decide) (by decide) (by decide)⟩

/-- C2 (counterexample): command 0 of `nodeCertGroups` is a node command and a
certificate command, every other membership is disjoint and all flag sets are
empty; `initFlags` does not complete but panics on the second registration of
`certs` on command 0. -/
theorem node_cert_overlap_panics :
    0 ∈ nodeCertGroups.nodeCmds ∧ 0 ∈ nodeCertGroups.certCmds ∧
    failure (initFlags nodeCertGroups (World.fresh exampleCtx)) = some (0, "certs") ∧
    flagsAfter (initFlags nodeCertGroups (World.fresh exampleCtx)) 0 = none := by
  decide

/-- C3: `initFlags` started on empty flag sets completes when the seven lists are
duplicate-free and pairwise disjoint, and after any completed run the flags of
a node command that are named by one of the ten node-scoped option names are
exactly the ten node-scoped options, once each and in registration order, of
kinds string, string, string, duration, duration, string, duration, bool,
int64, duration, each bound to its context field with that field's value at
binding time as default. The only other flags on the command are `insecure`
and `certs`, which are not node-scoped. -/
theorem node_command_flags (G : Groups) (ctx : Context) (c : Cmd) (hc : c ∈ G.nodeCmds) :
    ((allCmds G).Nodup → ∃ w, initFlags G (World.fresh ctx) = .ok w) ∧
    ∀ w, initFlags G (World.fresh ctx) = .ok w →
      ((w.flags c).filter (fun f => decide (f.Name ∈ nodeOptionNames))).map Flag.descr =
        [ ("addr", .string, .Addr, .str ctx.Addr),
          ("stores", .string, .Stores, .str ctx.Stores),
          ("attrs", .string, .Attrs, .str ctx.Attrs),
          ("max-offset", .duration, .MaxOffset, .dur ctx.MaxOffset),
          ("metrics-frequency", .duration, .MetricsFrequency, .dur ctx.MetricsFrequency),
          ("gossip", .string, .GossipBootstrap, .str ctx.GossipBootstrap),
          ("gossip-interval", .duration, .GossipInterval, .dur ctx.GossipInterval),
          ("linearizable", .bool, .Linearizable, .bool ctx.Linearizable),
          ("cache-size", .int64, .CacheSize, .int ctx.CacheSize),
          ("scan-interval", .duration, .ScanInterval, .dur ctx.ScanInterval) ] ∧
      ((w.flags c).filter (fun f => decide (f.Name ∉ nodeOptionNames))).map Flag.descr =
        [ ("insecure", .bool, .Insecure, .bool ctx.Insecure),
          ("certs", .string, .Certs, .str ctx.Certs) ] := by
  refine ⟨fun h => ⟨_, initFlags_fresh_ok h ctx⟩, ?_⟩
  intro w hrun
  obtain ⟨h, hw⟩ := initFlags_fresh_inv hrun
  subst hw
  have hproj := proj_plan_node (count_le_one_of_nodup h c) ctx hc
  refine ⟨?_, ?_⟩
  · show ((proj c (plan G ctx)).filter _).map Flag.descr = _
    rw [hproj]
    rfl
  · show ((proj c (plan G ctx)).filter _).map Flag.descr = _
    rw [hproj]
    rfl

/-- Witness for C3: the node command 0 of the example groups. -/
theorem node_command_flags_witness :
    ((allCmds exampleGroups).Nodup ∧ 0 ∈ exampleGroups.nodeCmds) ∧
    ∃ w, initFlags exampleGroups (World.fresh exampleCtx) = .ok w ∧
      ((w.flags 0).filter (fun f => decide (f.Name ∈ nodeOptionNames))).map Flag.descr =
        [ ("addr", .string, .Addr, .str exampleCtx.Addr),
          ("stores", .string, .Stores, .str exampleCtx.Stores),
          ("attrs", .string, .Attrs, .str exampleCtx.Attrs),
          ("max-offset", .duration, .MaxOffset, .dur exampleCtx.MaxOffset),
          ("metrics-frequency", .duration, .MetricsFrequency,
            .dur exampleCtx.MetricsFrequency),
          ("gossip", .string, .GossipBootstrap, .str exampleCtx.GossipBootstrap),
          ("gossip-interval", .duration, .GossipInterval, .dur exampleCtx.GossipInterval),
          ("linearizable", .bool, .Linearizable, .bool exampleCtx.Linearizable),
          ("cache-size", .int64, .CacheSize, .int exampleCtx.CacheSize),
          ("scan-interval", .duration, .ScanInterval, .dur exampleCtx.ScanInterval) ] ∧
      ((w.flags 0).filter (fun f => decide (f.Name ∉ nodeOptionNames))).map Flag.descr =
        [ ("insecure", .bool, .Insecure, .bool exampleCtx.Insecure),
          ("certs", .string, .Certs, .str exampleCtx.Certs) ] :=
  ⟨by decide,
    ((node_command_flags exampleGroups exampleCtx 0 (by decide)).1 (by decide)).elim
      (fun w hw => ⟨w, hw, (node_command_flags exampleGroups exampleCtx 0 (by decide)).2 w hw⟩)⟩

/-- C4: `initFlags` started on empty flag sets completes when the seven lists are
duplicate-free and pairwise disjoint, and after any completed run a command of
the derived client group has an `addr` flag bound to `ctx.Addr` whose default
is `ctx.Addr`, and, not being a node command as well, has none of the nine
node-only options on its flag set. -/
theorem client_command_flags (G : Groups) (ctx : Context) (c : Cmd) (hc : c ∈ clientCmds G) :
    ((allCmds G).Nodup → ∃ w, initFlags G (World.fresh ctx) = .ok w) ∧
    ∀ w, initFlags G (World.fresh ctx) = .ok w →
      (∃ f, (w.flags c).Lookup "addr" = some f ∧ f.Target = .Addr ∧
        f.DefValue = .str ctx.Addr) ∧
      (c ∉ G.nodeCmds → ∀ n, n ∈ nodeOnlyNames → n ∉ (w.flags c).names) := by
  refine ⟨fun h => ⟨_, initFlags_fresh_ok h ctx⟩, ?_⟩
  intro w hrun
  obtain ⟨h, hw⟩ := initFlags_fresh_inv hrun
  subst hw
  have hproj := proj_plan_client (count_le_one_of_nodup h c) ctx hc
  refine ⟨⟨addrClientFlag ctx, ?_, rfl, rfl⟩, ?_⟩
  · show FlagSet.Lookup (proj c (plan G ctx)) _ = _
    rw [hproj]
    rfl
  · intro _ n hn
    show n ∉ FlagSet.names (proj c (plan G ctx))
    rw [hproj, names_client]
    revert n
    decide

/-- Witness for C4: the kv command 1 of the example groups. -/
theorem client_command_flags_witness :
    ((allCmds exampleGroups).Nodup ∧ 1 ∈ clientCmds exampleGroups) ∧
    ∃ w, initFlags exampleGroups (World.fresh exampleCtx) = .ok w ∧
      (∃ f, (w.flags 1).Lookup "addr" = some f ∧ f.Target = .Addr ∧
        f.DefValue = .str exampleCtx.Addr) ∧
      (1 ∉ exampleGroups.nodeCmds → ∀ n, n ∈ nodeOnlyNames → n ∉ (w.flags 1).names) :=
  ⟨by decide,
    ((client_command_flags exampleGroups exampleCtx 1 (by decide)).1 (by decide)).elim
      (fun w hw => ⟨w, hw,
        (client_command_flags exampleGroups exampleCtx 1 (by decide)).2 w hw⟩)⟩

/-- C5: when the seven primary lists are duplicate-free and pairwise disjoint and
every flag set starts empty, `initFlags` completes; it has then made every call
of its four passes, no two of them with the same command and flag name, so
every flag set has pairwise different names and holds exactly the flags of the
calls made on its command. -/
theorem disjoint_groups_register_once (G : Groups) (ctx : Context)
    (hnd : ∀ l, l ∈ primaryGroups G → l.Nodup)
    (hdis : (primaryGroups G).Pairwise List.Disjoint) :
    ∃ w, initFlags G (World.fresh ctx) = .ok w ∧
      failure (initFlags G (World.fresh ctx)) = none ∧
      w.trace = plan G ctx ∧
      (w.trace.map Registration.key).Nodup ∧
      (∀ c, (w.flags c).names.Nodup) ∧
      (∀ c, w.flags c = proj c w.trace) := by
  have h : (allCmds G).Nodup := (allCmds_nodup_iff G).2 ⟨hnd, hdis⟩
  have hn : ∀ c, (FlagSet.names (proj c (plan G ctx))).Nodup :=
    fun c => plan_names_nodup_of_count (count_le_one_of_nodup h c) ctx
  refine ⟨_, initFlags_fresh_ok h ctx, ?_, rfl, keys_nodup_of_names_nodup _ hn, hn,
    fun _ => rfl⟩
  rw [initFlags_fresh_ok h ctx]
  rfl

/-- Witness for C5: the example groups. -/
theorem disjoint_groups_register_once_witness :
    ((∀ l, l ∈ primaryGroups exampleGroups → l.Nodup) ∧
      (primaryGroups exampleGroups).Pairwise List.Disjoint) ∧
    ∃ w, initFlags exampleGroups (World.fresh exampleCtx) = .ok w ∧
      failure (initFlags exampleGroups (World.fresh exampleCtx)) = none ∧
      w.trace = plan exampleGroups exampleCtx ∧
      (w.trace.map Registration.key).Nodup ∧
      (∀ c, (w.flags c).names.Nodup) ∧
      (∀ c, w.flags c = proj c w.trace) :=
  ⟨⟨by decide, by simp [primaryGroups, exampleGroups]⟩,
    disjoint_groups_register_once exampleGroups exampleCtx (by decide)
      (by simp [primaryGroups, exampleGroups])⟩

/-- C6: whenever some command occurs more than once in the concatenation of the
seven lists, `initFlags` started on empty flag sets does not complete: it
panics on a command that occurs more than once, with a flag name that is
already on that command's flag set, after two registration calls for that
command and name. -/
theorem overlapping_groups_abort (G : Groups) (ctx : Context) (h : ¬ (allCmds G).Nodup) :
    ∃ p, initFlags G (World.fresh ctx) = .error p ∧
      2 ≤ (allCmds G).count p.cmd ∧
      p.name ∈ (p.world.flags p.cmd).names ∧
      2 ≤ (p.world.trace.map Registration.key).count (p.cmd, p.name) := by
  rcases initFlags_fresh_cases G ctx with ⟨hn, _⟩ | ⟨L₁, r, L₂, hL, _, hr, herr⟩
  · exact absurd (nodup_of_plan_names_nodup hn) h
  · refine ⟨_, herr, ?_, hr, ?_⟩
    · show 2 ≤ (allCmds G).count r.cmd
      by_contra hlt
      have hcnt : (allCmds G).count r.cmd ≤ 1 := by omega
      have hnd := plan_names_nodup_of_count hcnt ctx
      rw [hL, proj_append, proj_cons, if_pos rfl, names_append, List.nodup_append] at hnd
      exact hnd.2.2 hr (by simp [FlagSet.names])
    · show 2 ≤ ((L₁ ++ [r]).map Registration.key).count (r.cmd, r.flag.Name)
      have h1 : 0 < (L₁.map Registration.key).count (r.cmd, r.flag.Name) :=
        List.count_pos_iff.2 (key_mem_of_name_mem hr)
      simp only [List.map_append, List.count_append, List.map_cons, List.map_nil]
      have h2 : List.count (r.cmd, r.flag.Name) [r.key] = 1 := by
        simp [Registration.key]
      omega

/-- Witness for C6: command 1 of `twoSubgroups` is a kv command and a range
command; it receives `addr` twice in the client pass. -/
theorem overlapping_groups_abort_witness :
    (¬ (allCmds twoSubgroups).Nodup ∧
      failure (initFlags twoSubgroups (World.fresh exampleCtx)) = some (1, "addr")) ∧
    ∃ p, initFlags twoSubgroups (World.fresh exampleCtx) = .error p ∧
      2 ≤ (allCmds twoSubgroups).count p.cmd ∧
      p.name ∈ (p.world.flags p.cmd).names ∧
      2 ≤ (p.world.trace.map Registration.key).count (p.cmd, p.name) :=
  ⟨by decide, overlapping_groups_abort twoSubgroups exampleCtx (by decide)⟩

/-- C7: `initFlags` started on empty flag sets completes when the seven lists are
duplicate-free and pairwise disjoint, and after any completed run the
`cache-size` flag of a node command is bound to `ctx.CacheSize` and records the
value of `ctx.CacheSize` at binding time as its default; setting `cache-size`
to a 64-bit integer `v` through that command's flag set makes `ctx.CacheSize`
read `v` and changes no other field; and setting any registered flag through
any command's flag set to a value of its kind writes that value into the one
context field the flag's name is bound to. -/
theorem cache_size_default_and_write_back (G : Groups) (ctx : Context) (c : Cmd)
    (hc : c ∈ G.nodeCmds) :
    ((allCmds G).Nodup → ∃ w, initFlags G (World.fresh ctx) = .ok w) ∧
    ∀ w, initFlags G (World.fresh ctx) = .ok w →
      (w.flags c).Lookup "cache-size" =
        some ⟨"cache-size", usageCacheSize, .CacheSize, .int ctx.CacheSize⟩ ∧
      (∀ v : Int, -(2 : Int) ^ 63 ≤ v → v < (2 : Int) ^ 63 →
        ∃ w', SetFlag w c "cache-size" (.int v) = .ok w' ∧ w'.ctx.CacheSize = v ∧
          w'.ctx = { ctx with CacheSize := v }) ∧
      (∀ (d : Cmd) (f : Flag) (v : Val), f ∈ w.flags d → v.fits f.kind = true →
        ∃ w', SetFlag w d f.Name v = .ok w' ∧ boundField f.Name = some f.Target ∧
          w'.ctx = ctx.set f.Target v ∧ w'.ctx.get f.Target = v) := by
  refine ⟨fun h => ⟨_, initFlags_fresh_ok h ctx⟩, ?_⟩
  intro w hrun
  obtain ⟨h, hw⟩ := initFlags_fresh_inv hrun
  subst hw
  have hproj := proj_plan_node (count_le_one_of_nodup h c) ctx hc
  have hlook : FlagSet.Lookup (proj c (plan G ctx)) "cache-size" =
      some ⟨"cache-size", usageCacheSize, .CacheSize, .int ctx.CacheSize⟩ := by
    rw [hproj]; rfl
  refine ⟨hlook, ?_, ?_⟩
  · intro v hlo hhi
    have hfit : (Val.int v).fits Kind.int64 = true := by
      show decide (-(2 : Int) ^ 63 ≤ v ∧ v < (2 : Int) ^ 63) = true
      exact decide_eq_true ⟨hlo, hhi⟩
    refine ⟨⟨{ ctx with CacheSize := v }, fun c => proj c (plan G ctx), plan G ctx⟩, ?_, rfl, rfl⟩
    simp only [SetFlag, hlook, Flag.kind, Field.kind, hfit, if_true]
    rfl
  · intro d f v hf hfit
    have hf' : f ∈ proj d (plan G ctx) := hf
    have hnd := plan_names_nodup_of_count (count_le_one_of_nodup h d) ctx
    have hl := lookup_of_mem _ f hnd hf'
    have hb := (flag_binding (flag_mem_allFlags (of_mem_proj hf'))).1
    refine ⟨⟨ctx.set f.Target v, fun c => proj c (plan G ctx), plan G ctx⟩, ?_, hb, rfl,
      Context.get_set ctx f.Target v hfit⟩
    simp only [SetFlag, hl, hfit, if_true]

/-- Witness for C7: the node command 0 of the example groups, whose context was
built with a cache size of 1073741824: the default of `cache-size` is
1073741824, and after setting `cache-size` to 500 the context reads 500. -/
theorem cache_size_default_and_write_back_witness :
    ((allCmds exampleGroups).Nodup ∧ 0 ∈ exampleGroups.nodeCmds ∧
      exampleCtx.CacheSize = 1073741824 ∧
      ((flagsAfter (initFlags exampleGroups (World.fresh exampleCtx)) 0).bind
        (fun f => f.Lookup "cache-size")).map Flag.DefValue = some (.int 1073741824) ∧
      (ctxAfterSet (initFlags exampleGroups (World.fresh exampleCtx)) 0 "cache-size"
        (.int 500)).map Context.CacheSize = some 500) ∧
    ∃ w, initFlags exampleGroups (World.fresh exampleCtx) = .ok w ∧
      (w.flags 0).Lookup "cache-size" =
        some ⟨"cache-size", usageCacheSize, .CacheSize, .int exampleCtx.CacheSize⟩ ∧
      (∀ v : Int, -(2 : Int) ^ 63 ≤ v → v < (2 : Int) ^ 63 →
        ∃ w', SetFlag w 0 "cache-size" (.int v) = .ok w' ∧ w'.ctx.CacheSize = v ∧
          w'.ctx = { exampleCtx with CacheSize := v }) ∧
      (∀ (d : Cmd) (f : Flag) (v : Val), f ∈ w.flags d → v.fits f.kind = true →
        ∃ w', SetFlag w d f.Name v = .ok w' ∧ boundField f.Name = some f.Target ∧
          w'.ctx = exampleCtx.set f.Target v ∧ w'.ctx.get f.Target = v) :=
  ⟨by decide,
    ((cache_size_default_and_write_back exampleGroups exampleCtx 0 (by decide)).1
      (by decide)).elim
      (fun w hw => ⟨w, hw,
        (cache_size_default_and_write_back exampleGroups exampleCtx 0 (by decide)).2 w hw⟩)⟩

/-- C8: for every context, every choice of the seven lists and every initial
content of the flag sets, any two registration calls that `initFlags` makes
under the same flag name, on whichever commands and in whichever passes, bind
the same context field and supply the same default, namely the value of that
field. -/
theorem same_name_same_binding (G : Groups) (ctx : Context) (fs : Cmd → FlagSet)
    (r₁ r₂ : Registration)
    (h₁ : r₁ ∈ attempts (initFlags G ⟨ctx, fs, []⟩))
    (h₂ : r₂ ∈ attempts (initFlags G ⟨ctx, fs, []⟩))
    (hn : r₁.flag.Name = r₂.flag.Name) :
    r₁.flag.Target = r₂.flag.Target ∧ r₁.flag.DefValue = r₂.flag.DefValue ∧
      r₁.flag.DefValue = ctx.get r₁.flag.Target := by
  rw [initFlags_eq] at h₁ h₂
  have m₁ : r₁ ∈ plan G ctx := by
    rcases attempts_runPlan _ _ _ h₁ with h | h
    · simp at h
    · exact h
  have m₂ : r₂ ∈ plan G ctx := by
    rcases attempts_runPlan _ _ _ h₂ with h | h
    · simp at h
    · exact h
  obtain ⟨b₁, d₁⟩ := flag_binding (flag_mem_allFlags m₁)
  obtain ⟨b₂, d₂⟩ := flag_binding (flag_mem_allFlags m₂)
  have ht : r₁.flag.Target = r₂.flag.Target := by
    rw [hn, b₂] at b₁
    exact (Option.some.inj b₁).symm
  exact ⟨ht, by rw [d₁, d₂, ht], d₁⟩

/-- Witness for C8: the node-pass `addr` on command 0 and the client-pass `addr`
on command 1 of the example groups; the two differ in their help text only. -/
theorem same_name_same_binding_witness :
    ((⟨0, ⟨"addr", usageAddr, .Addr, .str "localhost:8080"⟩⟩ : Registration) ∈
        attempts (initFlags exampleGroups ⟨exampleCtx, fun _ => [], []⟩) ∧
      (⟨1, ⟨"addr", usageAddrClient, .Addr, .str "localhost:8080"⟩⟩ : Registration) ∈
        attempts (initFlags exampleGroups ⟨exampleCtx, fun _ => [], []⟩) ∧
      usageAddr ≠ usageAddrClient) ∧
    (Field.Addr = Field.Addr ∧ Val.str "localhost:8080" = Val.str "localhost:8080" ∧
      Val.str "localhost:8080" = exampleCtx.get Field.Addr) :=
  ⟨by decide,
    same_name_same_binding exampleGroups exampleCtx (fun _ => [])
      ⟨0, ⟨"addr", usageAddr, .Addr, .str "localhost:8080"⟩⟩
      ⟨1, ⟨"addr", usageAddrClient, .Addr, .str "localhost:8080"⟩⟩
      (by decide) (by decide) rfl⟩

/-- C9: with duplicate-free, pairwise disjoint groups, `initFlags` run on empty
flag sets completes and leaves the context equal to what it was before
binding; run again on that context and a second set of empty flag sets it
completes again, gives every command the same flags with the same defaults,
and again leaves the context unchanged. -/
theorem initFlags_idempotent_defaults (G : Groups) (ctx : Context) (h : (allCmds G).Nodup) :
    ∃ w₁ w₂, initFlags G (World.fresh ctx) = .ok w₁ ∧ w₁.ctx = ctx ∧
      initFlags G (World.fresh w₁.ctx) = .ok w₂ ∧ w₂.ctx = ctx ∧
      ∀ c, w₂.flags c = w₁.flags c ∧
        (w₂.flags c).map (fun f => (f.Name, f.DefValue)) =
          (w₁.flags c).map (fun f => (f.Name, f.DefValue)) :=
  ⟨_, _, initFlags_fresh_ok h ctx, rfl, initFlags_fresh_ok h ctx, rfl, fun _ => ⟨rfl, rfl⟩⟩

/-- Witness for C9: the example groups. -/
theorem initFlags_idempotent_defaults_witness :
    (allCmds exampleGroups).Nodup ∧
    ∃ w₁ w₂, initFlags exampleGroups (World.fresh exampleCtx) = .ok w₁ ∧ w₁.ctx = exampleCtx ∧
      initFlags exampleGroups (World.fresh w₁.ctx) = .ok w₂ ∧ w₂.ctx = exampleCtx ∧
      ∀ c, w₂.flags c = w₁.flags c ∧
        (w₂.flags c).map (fun f => (f.Name, f.DefValue)) =
          (w₁.flags c).map (fun f => (f.Name, f.DefValue)) :=
  ⟨by decide, initFlags_idempotent_defaults exampleGroups exampleCtx (by decide)⟩

/-- C10: with duplicate-free, pairwise disjoint groups and empty flag sets,
`initFlags` completes and the flag names on each command, in registration
order, are fixed by its group: the twelve names of a node command, `addr`,
`insecure`, `certs` for a client command, and `certs` alone for a certificate
command. -/
theorem flag_names_by_group (G : Groups) (ctx : Context) (h : (allCmds G).Nodup) :
    ∃ w, initFlags G (World.fresh ctx) = .ok w ∧
      (∀ c, c ∈ G.nodeCmds → (w.flags c).names =
        ["addr", "stores", "attrs", "max-offset", "metrics-frequency", "gossip",
          "gossip-interval", "linearizable", "cache-size", "scan-interval", "insecure",
          "certs"]) ∧
      (∀ c, c ∈ clientCmds G → (w.flags c).names = ["addr", "insecure", "certs"]) ∧
      (∀ c, c ∈ G.certCmds → (w.flags c).names = ["certs"]) := by
  refine ⟨_, initFlags_fresh_ok h ctx, ?_, ?_, ?_⟩
  · intro c hc
    show FlagSet.names (proj c (plan G ctx)) = _
    rw [proj_plan_node (count_le_one_of_nodup h c) ctx hc, names_node]
  · intro c hc
    show FlagSet.names (proj c (plan G ctx)) = _
    rw [proj_plan_client (count_le_one_of_nodup h c) ctx hc, names_client]
  · intro c hc
    show FlagSet.names (proj c (plan G ctx)) = _
    rw [proj_plan_cert (count_le_one_of_nodup h c) ctx hc]
    rfl

/-- Witness for C10: the example groups. -/
theorem flag_names_by_group_witness :
    (allCmds exampleGroups).Nodup ∧
    ∃ w, initFlags exampleGroups (World.fresh exampleCtx) = .ok w ∧
      (∀ c, c ∈ exampleGroups.nodeCmds → (w.flags c).names =
        ["addr", "stores", "attrs", "max-offset", "metrics-frequency", "gossip",
          "gossip-interval", "linearizable", "cache-size", "scan-interval", "insecure",
          "certs"]) ∧
      (∀ c, c ∈ clientCmds exampleGroups → (w.flags c).names = ["addr", "insecure", "certs"]) ∧
      (∀ c, c ∈ exampleGroups.certCmds → (w.flags c).names = ["certs"]) :=
  ⟨by decide, flag_names_by_group exampleGroups exampleCtx (by decide)⟩

end cli
